import Mathlib

/-!
Verification of the GlobalDub dubbing pipeline (src/dub.py).

The development shallowly embeds the duration-reconciliation and mixing
logic of `mix_audio`, the time-scaler `adjust_audio_speed`, the chunked
translator `translate_text`, and the batch runner `batch_process` from
src/dub.py.  Durations are modeled as exact rationals (Python floats are
used for exact comparisons and a single division in the source), text as
lists of characters, and the external ffmpeg/translator collaborators as
function parameters returning `Option` (with `none` modeling a raised
exception / failed subprocess).
-/

namespace GlobalDub

/-- Maximum speedup for translated audio (src/dub.py line 64:
`MAX_SPEED_FACTOR = 1.25`), as the exact rational 5/4. -/
def MAX_SPEED_FACTOR : ℚ := 5 / 4

/-- Default attenuation for the original audio bed (src/dub.py line 63:
`ORIGINAL_AUDIO_VOLUME = 0.1`). -/
def ORIGINAL_AUDIO_VOLUME : ℚ := 1 / 10

/-- An audio clip: a duration in seconds plus abstract sample content.
Models the moviepy `AudioFileClip` objects handled by `mix_audio`. -/
structure AudioClip where
  duration : ℚ
  samples : List Int
deriving DecidableEq

/-- Errors that can escape the reconciliation/mixing code of src/dub.py:
`zeroDivision` models Python's uncaught `ZeroDivisionError` raised by
`dubbed_duration / video_duration` when `video_duration == 0` (line 301);
`transcodeError` models `subprocess.CalledProcessError` raised by the
`check=True` ffmpeg invocation in `adjust_audio_speed` (line 267). -/
inductive MixError where
  | zeroDivision
  | transcodeError
deriving DecidableEq

/-- The three possible duration-reconciliation outcomes of `mix_audio`
(lines 299-313): use the dub as is, speed it up by a factor, or trim it. -/
inductive ReconcileAction where
  | passThrough
  | scaled (factor : ℚ)
  | truncated
deriving DecidableEq

/-- The branch structure of `mix_audio` lines 299-313 of src/dub.py:
`if dubbed_duration > video_duration: speed_needed = dubbed_duration /
video_duration; if speed_needed <= MAX_SPEED_FACTOR: ...speed up... else:
...trim...` with no branch taken when the dub already fits.  The division
is evaluated only inside the outer branch, so `video_duration == 0`
raises `ZeroDivisionError` there (and only there). -/
def reconcile (videoDuration dubbedDuration : ℚ) : Except MixError ReconcileAction :=
  if videoDuration < dubbedDuration then
    if videoDuration = 0 then Except.error MixError.zeroDivision
    else
      let speedNeeded := dubbedDuration / videoDuration
      if speedNeeded ≤ MAX_SPEED_FACTOR then Except.ok (ReconcileAction.scaled speedNeeded)
      else Except.ok ReconcileAction.truncated
  else Except.ok ReconcileAction.passThrough

/-- The external `ffmpeg -filter:a atempo=...` transform invoked by
`adjust_audio_speed` (lines 259-267).  `run input factor = none` models a
failed subprocess (tool unavailable or input unreadable). -/
structure AtempoTool where
  run : AudioClip → ℚ → Option AudioClip

/-- Result of `adjust_audio_speed`: the audio written to the output path,
plus whether ffmpeg was invoked (`false` on the `shutil.copy` path). -/
structure SpeedResult where
  output : AudioClip
  invokedFfmpeg : Bool
deriving DecidableEq

/-- `adjust_audio_speed` (src/dub.py lines 249-267): with
`speed_factor == 1.0` it does `shutil.copy(audio_path, output_path)` and
returns (a byte-identical copy, no ffmpeg call); otherwise it runs ffmpeg
with `check=True`, so a failed transform raises instead of producing
output. -/
def adjust_audio_speed (tool : AtempoTool) (input : AudioClip) (speedFactor : ℚ) :
    Except MixError SpeedResult :=
  if speedFactor = 1 then Except.ok ⟨input, false⟩
  else
    match tool.run input speedFactor with
    | some out => Except.ok ⟨out, true⟩
    | none => Except.error MixError.transcodeError

/-- The dub track actually placed on the output timeline by `mix_audio`:
`raw` = the loaded `AudioFileClip` used unmodified (pass-through branch);
`adjusted` = the ffmpeg-atempo re-encoding at the recorded factor
(lines 303-310); `clipped original upTo` = `original.subclip(0, upTo)`
(line 313), which keeps exactly the first `upTo` seconds and discards all
trailing content. -/
inductive DubTrack where
  | raw (clip : AudioClip)
  | adjusted (original : AudioClip) (factor : ℚ) (result : AudioClip)
  | clipped (original : AudioClip) (upTo : ℚ)
deriving DecidableEq

/-- The atempo factor actually applied to the dub track: 1 on the
pass-through and truncation paths (no tempo change), the speed factor on
the scaled path. -/
def DubTrack.appliedFactor : DubTrack → ℚ
  | DubTrack.raw _ => 1
  | DubTrack.adjusted _ f _ => f
  | DubTrack.clipped _ _ => 1

/-- Duration of the dub track as used: unchanged for `raw`, the
re-encoded clip's duration for `adjusted`, and the subclip bound for
`clipped` (moviepy's `subclip(0, t)` has duration `t`). -/
def DubTrack.outDuration : DubTrack → ℚ
  | DubTrack.raw c => c.duration
  | DubTrack.adjusted _ _ r => r.duration
  | DubTrack.clipped _ t => t

/-- The composite audio set on the output video (src/dub.py lines
316-319): `CompositeAudioClip([original.volumex(vol), dub])` when the
source video has an audio track, the dub alone when it does not. -/
inductive FinalAudio where
  | composite (originalVolume : ℚ) (originalClip : AudioClip) (dub : DubTrack)
  | dubOnly (dub : DubTrack)
deriving DecidableEq

/-- Outcome of a successful `mix_audio` run: the dub track used and the
final audio placed on the rendered video. -/
structure MixResult where
  dub : DubTrack
  final : FinalAudio
deriving DecidableEq

/-- Lines 316-319 of src/dub.py: the original audio, when present, is
attenuated by `volumex(original_volume)` and composited with the dub;
when `video.audio is None` the attenuation step is skipped and the dub
becomes the sole audio track. -/
def assembleFinal (originalAudio : Option AudioClip) (originalVolume : ℚ)
    (dubTrack : DubTrack) : FinalAudio :=
  match originalAudio with
  | some o => FinalAudio.composite originalVolume o dubTrack
  | none => FinalAudio.dubOnly dubTrack

/-- `mix_audio` (src/dub.py lines 270-341), restricted to its audio
decision logic: reconcile the dub duration against the video duration,
apply `adjust_audio_speed` on the scaled branch (its factor is the
`speed_needed` ratio, never 1 there), `subclip(0, video_duration)` on the
truncated branch, and assemble the final audio with the (optional)
attenuated original bed.  Errors from the division and from ffmpeg
propagate to the caller; nothing catches them in the source. -/
def mix_audio (tool : AtempoTool) (originalAudio : Option AudioClip)
    (dubbedAudio : AudioClip) (originalVolume videoDuration : ℚ) :
    Except MixError MixResult :=
  match reconcile videoDuration dubbedAudio.duration with
  | Except.error e => Except.error e
  | Except.ok ReconcileAction.passThrough =>
      Except.ok ⟨DubTrack.raw dubbedAudio,
        assembleFinal originalAudio originalVolume (DubTrack.raw dubbedAudio)⟩
  | Except.ok (ReconcileAction.scaled f) =>
      match adjust_audio_speed tool dubbedAudio f with
      | Except.error e => Except.error e
      | Except.ok res =>
          Except.ok ⟨DubTrack.adjusted dubbedAudio f res.output,
            assembleFinal originalAudio originalVolume
              (DubTrack.adjusted dubbedAudio f res.output)⟩
  | Except.ok ReconcileAction.truncated =>
      Except.ok ⟨DubTrack.clipped dubbedAudio videoDuration,
        assembleFinal originalAudio originalVolume
          (DubTrack.clipped dubbedAudio videoDuration)⟩

/-- `Except` success test (used to compare error behavior of runs). -/
def isOkE {ε α : Type} : Except ε α → Bool
  | Except.ok _ => true
  | Except.error _ => false

/-- Python `\s` whitespace on the ASCII range, as matched by the
sentence-splitting regex of `translate_text` (src/dub.py line 191). -/
def isPySpace (c : Char) : Bool :=
  c = ' ' || c = '\t' || c = '\n' || c = '\r' || c = '\x0b' || c = '\x0c'

/-- The sentence-final characters of the lookbehind `(?<=[.!?])` in the
splitting regex of `translate_text` (src/dub.py line 191). -/
def isSentenceEnd (c : Char) : Bool :=
  c = '.' || c = '!' || c = '?'

/-- Whether the text accumulated so far ends in `.`, `!` or `?`, i.e.
whether the regex lookbehind succeeds at the current position. -/
def endsSentence (cur : List Char) : Bool :=
  match cur.getLast? with
  | some c => isSentenceEnd c
  | none => false

/-- Left-to-right scan implementing `re.split(r'(?<=[.!?])\s+', text)`
(src/dub.py line 191).  `cur` is the sentence being accumulated; the
`Bool` flag records that we are inside a matched (maximal) whitespace
run, whose characters are consumed as separator.  A whitespace character
ends the current sentence exactly when the preceding character is one of
`.`, `!`, `?`; other whitespace stays inside the sentence. -/
def splitSentencesAux : List Char → List Char → Bool → List (List Char)
  | [], cur, _ => [cur]
  | c :: rest, cur, true =>
      if isPySpace c then splitSentencesAux rest cur true
      else splitSentencesAux rest [c] false
  | c :: rest, cur, false =>
      if isPySpace c && endsSentence cur then cur :: splitSentencesAux rest [] true
      else splitSentencesAux rest (cur ++ [c]) false

/-- `sentences = re.split(r'(?<=[.!?])\s+', text)` of src/dub.py line 191. -/
def splitSentences (text : List Char) : List (List Char) :=
  splitSentencesAux text [] false

/-- The chunk-size threshold of `translate_text` (src/dub.py line 185:
`max_chunk_size = 4500`). -/
def max_chunk_size : Nat := 4500

/-- Python `str.strip()` on our character lists: drop leading and
trailing whitespace. -/
def stripChars (l : List Char) : List Char :=
  ((l.dropWhile isPySpace).reverse.dropWhile isPySpace).reverse

/-- The chunk-building loop of `translate_text` (src/dub.py lines
193-204): greedily pack sentences while `len(current_chunk) +
len(sentence) < max_chunk_size` (each packed sentence is preceded by a
single space), flushing `current_chunk.strip()` when the next sentence
does not fit (only if the current chunk is nonempty) and starting over
from that sentence; the trailing chunk is flushed after the loop. -/
def buildChunksAux : List (List Char) → List Char → List (List Char)
  | [], current => if current.isEmpty then [] else [stripChars current]
  | s :: rest, current =>
      if current.length + s.length < max_chunk_size then
        buildChunksAux rest (current ++ [' '] ++ s)
      else
        (if current.isEmpty then [] else [stripChars current]) ++ buildChunksAux rest s

/-- `translate_text` (src/dub.py lines 175-222).  The collaborating
translator is a parameter; `translator c = none` models
`translator.translate(c)` raising an exception.  Short inputs are
translated in one uncaught call; long inputs are split into sentence
chunks, each chunk is translated under `try/except` with the original
chunk kept on failure, and the results are rejoined with
`" ".join(...)`. -/
def translate_text (translator : List Char → Option (List Char)) (text : List Char) :
    Option (List Char) :=
  if text.length ≤ max_chunk_size then translator text
  else
    let chunks := buildChunksAux (splitSentences text) []
    some (List.intercalate [' '] (chunks.map (fun c => (translator c).getD c)))

/-- One recorded outcome of `batch_process` (src/dub.py lines 423-426):
a dict with the url and either the output (status "success") or the
stringified error (status "failed"). -/
inductive JobOutcome (α ε : Type) where
  | success (url : String) (output : α)
  | failed (url : String) (error : ε)
deriving DecidableEq

/-- `r["status"] == "success"` for a recorded outcome. -/
def JobOutcome.isSuccess {α ε : Type} : JobOutcome α ε → Bool
  | JobOutcome.success _ _ => true
  | JobOutcome.failed _ _ => false

/-- `r["status"] == "failed"` for a recorded outcome. -/
def JobOutcome.isFailed {α ε : Type} : JobOutcome α ε → Bool
  | JobOutcome.success _ _ => false
  | JobOutcome.failed _ _ => true

/-- The per-url loop of `batch_process` (src/dub.py lines 415-426):
urls are processed strictly in order; `process url = Except.error e`
models `process_video` raising, which the `try/except` converts into a
"failed" record while the loop continues with the next url. -/
def batch_process {α ε : Type} (process : String → Except ε α) :
    List String → List (JobOutcome α ε)
  | [] => []
  | url :: rest =>
      match process url with
      | Except.ok out => JobOutcome.success url out :: batch_process process rest
      | Except.error e => JobOutcome.failed url e :: batch_process process rest

/-- `success = sum(1 for r in results if r["status"] == "success")`
(src/dub.py line 433). -/
def successCount {α ε : Type} (results : List (JobOutcome α ε)) : Nat :=
  results.countP (fun r => r.isSuccess)

/-- `failed = sum(1 for r in results if r["status"] == "failed")`
(src/dub.py line 434). -/
def failedCount {α ε : Type} (results : List (JobOutcome α ε)) : Nat :=
  results.countP (fun r => r.isFailed)

deriving instance DecidableEq for Except

theorem reconcile_pass {v d : ℚ} (h : d ≤ v) :
    reconcile v d = Except.ok ReconcileAction.passThrough := by
  simp [reconcile, not_lt.mpr h]

theorem reconcile_scaled {v d : ℚ} (hv : 0 < v) (h1 : v < d)
    (h2 : d ≤ v * MAX_SPEED_FACTOR) :
    reconcile v d = Except.ok (ReconcileAction.scaled (d / v)) := by
  have hne : v ≠ 0 := ne_of_gt hv
  have hle : d / v ≤ MAX_SPEED_FACTOR := by
    rw [div_le_iff₀ hv]
    calc d ≤ v * MAX_SPEED_FACTOR := h2
    _ = MAX_SPEED_FACTOR * v := mul_comm _ _
  simp [reconcile, h1, hne, hle]

theorem reconcile_trunc {v d : ℚ} (hv : 0 < v) (h : v * MAX_SPEED_FACTOR < d) :
    reconcile v d = Except.ok ReconcileAction.truncated := by
  have hmsf : v * 1 < v * MAX_SPEED_FACTOR := by
    have : (1 : ℚ) < MAX_SPEED_FACTOR := by norm_num [MAX_SPEED_FACTOR]
    exact mul_lt_mul_of_pos_left this hv
  have h1 : v < d := by rw [mul_one] at hmsf; exact hmsf.trans h
  have hne : v ≠ 0 := ne_of_gt hv
  have hgt : MAX_SPEED_FACTOR < d / v := by
    rw [lt_div_iff₀ hv]
    calc MAX_SPEED_FACTOR * v = v * MAX_SPEED_FACTOR := mul_comm _ _
    _ < d := h
  simp [reconcile, h1, hne, not_le.mpr hgt]

/-- C1: for every video duration > 0 and every dub duration with
0 ≤ dub ≤ video, the duration-reconciliation decision in `mix_audio` is
pass-through with applied factor 1: the dub audio is placed on the
timeline unmodified (`DubTrack.raw`), never stretched or slowed. -/
theorem C1_pass_through_decision (tool : AtempoTool) (orig : Option AudioClip)
    (dub : AudioClip) (vol videoDuration : ℚ)
    (hv : 0 < videoDuration) (h0 : 0 ≤ dub.duration) (h1 : dub.duration ≤ videoDuration) :
    reconcile videoDuration dub.duration = Except.ok ReconcileAction.passThrough ∧
    mix_audio tool orig dub vol videoDuration =
      Except.ok ⟨DubTrack.raw dub, assembleFinal orig vol (DubTrack.raw dub)⟩ ∧
    DubTrack.appliedFactor (DubTrack.raw dub) = 1 := by
  refine ⟨reconcile_pass h1, ?_, rfl⟩
  simp [mix_audio, reconcile_pass h1]

theorem C1_pass_through_witness :
    reconcile 10 (AudioClip.mk 7 []).duration = Except.ok ReconcileAction.passThrough ∧
    mix_audio (AtempoTool.mk (fun c _ => some c)) none (AudioClip.mk 7 []) (1/10) 10 =
      Except.ok ⟨DubTrack.raw (AudioClip.mk 7 []),
        assembleFinal none (1/10) (DubTrack.raw (AudioClip.mk 7 []))⟩ ∧
    DubTrack.appliedFactor (DubTrack.raw (AudioClip.mk 7 [])) = 1 :=
  C1_pass_through_decision (AtempoTool.mk (fun c _ => some c)) none (AudioClip.mk 7 [])
    (1/10) 10 (by norm_num) (by norm_num : (0:ℚ) ≤ 7) (by norm_num : (7:ℚ) ≤ 10)

/-- C2: for every video duration > 0 and dub duration with
video < dub ≤ video * MAX_SPEED_FACTOR, the decision is scaled with
factor exactly dub/video, that factor is ≤ MAX_SPEED_FACTOR, and (when
the atempo transform succeeds) `mix_audio` places the re-encoded dub at
that factor on the timeline. -/
theorem C2_scaled_decision (tool : AtempoTool) (orig : Option AudioClip)
    (dub : AudioClip) (vol videoDuration : ℚ)
    (hv : 0 < videoDuration) (h1 : videoDuration < dub.duration)
    (h2 : dub.duration ≤ videoDuration * MAX_SPEED_FACTOR) :
    reconcile videoDuration dub.duration =
      Except.ok (ReconcileAction.scaled (dub.duration / videoDuration)) ∧
    dub.duration / videoDuration ≤ MAX_SPEED_FACTOR ∧
    (∀ adj : AudioClip, tool.run dub (dub.duration / videoDuration) = some adj →
      mix_audio tool orig dub vol videoDuration =
        Except.ok ⟨DubTrack.adjusted dub (dub.duration / videoDuration) adj,
          assembleFinal orig vol
            (DubTrack.adjusted dub (dub.duration / videoDuration) adj)⟩) := by
  have hle : dub.duration / videoDuration ≤ MAX_SPEED_FACTOR := by
    rw [div_le_iff₀ hv]
    calc dub.duration ≤ videoDuration * MAX_SPEED_FACTOR := h2
    _ = MAX_SPEED_FACTOR * videoDuration := mul_comm _ _
  refine ⟨reconcile_scaled hv h1 h2, hle, ?_⟩
  intro adj hadj
  have hne : dub.duration / videoDuration ≠ 1 :=
    ne_of_gt ((one_lt_div hv).mpr h1)
  simp [mix_audio, reconcile_scaled hv h1 h2, adjust_audio_speed, hne, hadj]

theorem C2_scaled_witness :
    reconcile 30 33 = Except.ok (ReconcileAction.scaled (11 / 10)) ∧
    (11 : ℚ) / 10 ≤ MAX_SPEED_FACTOR ∧
    mix_audio (AtempoTool.mk (fun c _ => some c)) none (AudioClip.mk 33 []) (1/10) 30 =
      Except.ok ⟨DubTrack.adjusted (AudioClip.mk 33 []) (33 / 30) (AudioClip.mk 33 []),
        assembleFinal none (1/10)
          (DubTrack.adjusted (AudioClip.mk 33 []) (33 / 30) (AudioClip.mk 33 []))⟩ := by
  have h := C2_scaled_decision (AtempoTool.mk (fun c _ => some c)) none (AudioClip.mk 33 [])
    (1/10) 30 (by norm_num) (by norm_num : (30:ℚ) < 33)
    (by norm_num [MAX_SPEED_FACTOR] : (33:ℚ) ≤ 30 * MAX_SPEED_FACTOR)
  have e : (33 : ℚ) / 30 = 11 / 10 := by norm_num
  refine ⟨?_, ?_, h.2.2 (AudioClip.mk 33 []) rfl⟩
  · have h1 := h.1
    rw [show (AudioClip.mk 33 []).duration = (33:ℚ) from rfl, e] at h1
    exact h1
  · have h2 := h.2.1
    rw [show (AudioClip.mk 33 []).duration = (33:ℚ) from rfl, e] at h2
    exact h2

/-- C3: for every video duration > 0 and dub duration >
video * MAX_SPEED_FACTOR, the decision is truncated: no tempo change is
applied (factor 1), and the dub is cut to `subclip(0, video_duration)`,
i.e. exactly the first video-duration seconds, discarding the rest. -/
theorem C3_truncated_decision (tool : AtempoTool) (orig : Option AudioClip)
    (dub : AudioClip) (vol videoDuration : ℚ)
    (hv : 0 < videoDuration) (h : videoDuration * MAX_SPEED_FACTOR < dub.duration) :
    reconcile videoDuration dub.duration = Except.ok ReconcileAction.truncated ∧
    mix_audio tool orig dub vol videoDuration =
      Except.ok ⟨DubTrack.clipped dub videoDuration,
        assembleFinal orig vol (DubTrack.clipped dub videoDuration)⟩ ∧
    DubTrack.appliedFactor (DubTrack.clipped dub videoDuration) = 1 ∧
    DubTrack.outDuration (DubTrack.clipped dub videoDuration) = videoDuration := by
  refine ⟨reconcile_trunc hv h, ?_, rfl, rfl⟩
  simp [mix_audio, reconcile_trunc hv h]

theorem C3_truncated_witness :
    reconcile 20 40 = Except.ok ReconcileAction.truncated ∧
    mix_audio (AtempoTool.mk (fun c _ => some c)) none (AudioClip.mk 40 []) (1/10) 20 =
      Except.ok ⟨DubTrack.clipped (AudioClip.mk 40 []) 20,
        assembleFinal none (1/10) (DubTrack.clipped (AudioClip.mk 40 []) 20)⟩ ∧
    DubTrack.appliedFactor (DubTrack.clipped (AudioClip.mk 40 []) 20) = 1 ∧
    DubTrack.outDuration (DubTrack.clipped (AudioClip.mk 40 []) 20) = 20 :=
  C3_truncated_decision (AtempoTool.mk (fun c _ => some c)) none (AudioClip.mk 40 [])
    (1/10) 20 (by norm_num)
    (by norm_num [MAX_SPEED_FACTOR] : (20:ℚ) * MAX_SPEED_FACTOR < 40)

/-- C4 counterexample: the claim says a zero video duration makes the
reconciliation step fail with an `InvalidInput` error, but at
video_duration = 0 and dub_duration = 0 the code takes the pass-through
branch and fails with no error at all (the code has no `InvalidInput`
validation anywhere). -/
theorem C4_counterexample :
    reconcile 0 0 = Except.ok ReconcileAction.passThrough ∧
    ¬ ∃ e : MixError, reconcile 0 0 = Except.error e := by
  constructor
  · simp [reconcile]
  · rintro ⟨e, he⟩
    simp [reconcile] at he

/-- C4 amended: with video_duration = 0 and dub_duration > 0 the
reconciliation step fails with an uncaught division-by-zero error (not a
typed `InvalidInput`); with video_duration = 0 = dub_duration it
pass-throughs without any error; with dub_duration = 0 and
video_duration > 0 the result is pass-through with the (silent) dub used
unmodified and no crash occurs. -/
theorem C4_zero_duration_amended (tool : AtempoTool) (orig : Option AudioClip)
    (samples : List Int) (vol d v : ℚ) :
    (0 < d → reconcile 0 d = Except.error MixError.zeroDivision) ∧
    reconcile 0 0 = Except.ok ReconcileAction.passThrough ∧
    (0 < v → reconcile v 0 = Except.ok ReconcileAction.passThrough) ∧
    (0 < v → mix_audio tool orig (AudioClip.mk 0 samples) vol v =
      Except.ok ⟨DubTrack.raw (AudioClip.mk 0 samples),
        assembleFinal orig vol (DubTrack.raw (AudioClip.mk 0 samples))⟩) := by
  refine ⟨?_, by simp [reconcile], ?_, ?_⟩
  · intro hd
    simp [reconcile, hd]
  · intro hv
    exact reconcile_pass (le_of_lt hv)
  · intro hv
    have hp : reconcile v (AudioClip.mk 0 samples).duration =
        Except.ok ReconcileAction.passThrough :=
      reconcile_pass (le_of_lt hv)
    simp [mix_audio, hp]

theorem C4_zero_duration_witness :
    reconcile 0 5 = Except.error MixError.zeroDivision ∧
    reconcile 0 0 = Except.ok ReconcileAction.passThrough ∧
    reconcile 7 0 = Except.ok ReconcileAction.passThrough ∧
    mix_audio (AtempoTool.mk (fun c _ => some c)) none (AudioClip.mk 0 []) (1/10) 7 =
      Except.ok ⟨DubTrack.raw (AudioClip.mk 0 []),
        assembleFinal none (1/10) (DubTrack.raw (AudioClip.mk 0 []))⟩ := by
  obtain ⟨a, b, c, d⟩ := C4_zero_duration_amended (AtempoTool.mk (fun c _ => some c))
    none [] (1/10) 5 7
  exact ⟨a (by norm_num), b, c (by norm_num), d (by norm_num)⟩

/-- C5: if the atempo transform fails when a factor other than 1 is
required, `adjust_audio_speed` fails with the transcode error (the
`check=True` subprocess raises), never returning any output — in
particular never the untouched input — and `mix_audio`'s scaled branch
propagates that error to its caller. -/
theorem C5_transcode_failure (tool : AtempoTool) (input dub : AudioClip)
    (orig : Option AudioClip) (factor vol videoDuration : ℚ)
    (hf : factor ≠ 1) (hfail : tool.run input factor = none)
    (hv : 0 < videoDuration) (h1 : videoDuration < dub.duration)
    (h2 : dub.duration ≤ videoDuration * MAX_SPEED_FACTOR)
    (hfail2 : tool.run dub (dub.duration / videoDuration) = none) :
    adjust_audio_speed tool input factor = Except.error MixError.transcodeError ∧
    (∀ res : SpeedResult, adjust_audio_speed tool input factor ≠ Except.ok res) ∧
    mix_audio tool orig dub vol videoDuration = Except.error MixError.transcodeError := by
  have hadj : adjust_audio_speed tool input factor = Except.error MixError.transcodeError := by
    simp [adjust_audio_speed, hf, hfail]
  refine ⟨hadj, ?_, ?_⟩
  · intro res h
    rw [hadj] at h
    exact Except.noConfusion h
  · have hne : dub.duration / videoDuration ≠ 1 :=
      ne_of_gt ((one_lt_div hv).mpr h1)
    simp [mix_audio, reconcile_scaled hv h1 h2, adjust_audio_speed, hne, hfail2]

theorem C5_transcode_failure_witness :
    adjust_audio_speed (AtempoTool.mk (fun _ _ => none)) (AudioClip.mk 5 []) 2 =
      Except.error MixError.transcodeError ∧
    mix_audio (AtempoTool.mk (fun _ _ => none)) none (AudioClip.mk 33 []) (1/10) 30 =
      Except.error MixError.transcodeError := by
  have h := C5_transcode_failure (AtempoTool.mk (fun _ _ => none)) (AudioClip.mk 5 [])
    (AudioClip.mk 33 []) none 2 (1/10) 30 (by norm_num) rfl (by norm_num)
    (by norm_num : (30:ℚ) < 33)
    (by norm_num [MAX_SPEED_FACTOR] : (33:ℚ) ≤ 30 * MAX_SPEED_FACTOR) rfl
  exact ⟨h.1, h.2.2⟩

/-- C6: for factor exactly 1, `adjust_audio_speed` returns a
byte-identical copy of its input (the `shutil.copy` path) and does not
invoke the ffmpeg transform at all. -/
theorem C6_factor_one_copy (tool : AtempoTool) (input : AudioClip) :
    adjust_audio_speed tool input 1 = Except.ok ⟨input, false⟩ := by
  simp [adjust_audio_speed]

/-- C7: when the source video has no original audio track, `mix_audio`
does not error on that account: every successful run's final audio is
the dub track alone (the attenuation/composite step is skipped), the
pass-through case completes normally, and success/failure of the run is
identical to what it would be with an original track present. -/
theorem C7_no_original_audio (tool : AtempoTool) (dub : AudioClip)
    (vol videoDuration : ℚ) :
    (∀ r : MixResult, mix_audio tool none dub vol videoDuration = Except.ok r →
      r.final = FinalAudio.dubOnly r.dub) ∧
    (dub.duration ≤ videoDuration →
      mix_audio tool none dub vol videoDuration =
        Except.ok ⟨DubTrack.raw dub, FinalAudio.dubOnly (DubTrack.raw dub)⟩) ∧
    (∀ origClip : AudioClip,
      isOkE (mix_audio tool (some origClip) dub vol videoDuration) =
        isOkE (mix_audio tool none dub vol videoDuration)) := by
  refine ⟨?_, ?_, ?_⟩
  · intro r h
    rcases hr : reconcile videoDuration dub.duration with e | act
    · simp [mix_audio, hr] at h
    · rcases act with _ | f | _
      · simp [mix_audio, hr] at h
        rw [← h]
        rfl
      · rcases hadj : adjust_audio_speed tool dub f with e | res
        · simp [mix_audio, hr, hadj] at h
        · simp [mix_audio, hr, hadj] at h
          rw [← h]
          rfl
      · simp [mix_audio, hr] at h
        rw [← h]
        rfl
  · intro hle
    simp [mix_audio, reconcile_pass hle, assembleFinal]
  · intro origClip
    rcases hr : reconcile videoDuration dub.duration with e | act
    · simp [mix_audio, hr, isOkE]
    · rcases act with _ | f | _
      · simp [mix_audio, hr, isOkE]
      · rcases hadj : adjust_audio_speed tool dub f with e | res
        · simp [mix_audio, hr, hadj, isOkE]
        · simp [mix_audio, hr, hadj, isOkE]
      · simp [mix_audio, hr, isOkE]

theorem C7_no_original_witness :
    mix_audio (AtempoTool.mk (fun c _ => some c)) none (AudioClip.mk 7 []) (1/10) 10 =
      Except.ok ⟨DubTrack.raw (AudioClip.mk 7 []),
        FinalAudio.dubOnly (DubTrack.raw (AudioClip.mk 7 []))⟩ :=
  (C7_no_original_audio (AtempoTool.mk (fun c _ => some c)) (AudioClip.mk 7 [])
    (1/10) 10).2.1 (by norm_num : (7:ℚ) ≤ 10)

theorem length_dropWhile_le_gd (p : Char → Bool) (l : List Char) :
    (l.dropWhile p).length ≤ l.length := by
  induction l with
  | nil => simp
  | cons a rest ih =>
      rw [List.dropWhile_cons]
      by_cases h : p a = true
      · simp only [h, if_true]
        exact ih.trans (Nat.le_succ _)
      · simp [h]

theorem stripChars_length_le (l : List Char) : (stripChars l).length ≤ l.length := by
  unfold stripChars
  rw [List.length_reverse]
  calc ((l.dropWhile isPySpace).reverse.dropWhile isPySpace).length
      ≤ (l.dropWhile isPySpace).reverse.length := length_dropWhile_le_gd _ _
  _ = (l.dropWhile isPySpace).length := List.length_reverse _
  _ ≤ l.length := length_dropWhile_le_gd _ _

theorem endsSentence_ne_nil {cur : List Char} (h : endsSentence cur = true) :
    cur ≠ [] := by
  intro hn
  subst hn
  simp [endsSentence] at h

theorem splitAux_exists_nonempty (l : List Char) :
    ∀ cur : List Char, cur ≠ [] ∨ l ≠ [] →
      ∃ s ∈ splitSentencesAux l cur false, s ≠ [] := by
  induction l with
  | nil =>
      intro cur h
      rcases h with h | h
      · exact ⟨cur, by simp [splitSentencesAux], h⟩
      · exact absurd rfl h
  | cons c rest ih =>
      intro cur _
      by_cases hb : (isPySpace c && endsSentence cur) = true
      · have hcur : cur ≠ [] :=
          endsSentence_ne_nil ((Bool.and_eq_true _ _).mp hb).2
        refine ⟨cur, ?_, hcur⟩
        simp [splitSentencesAux, hb]
      · obtain ⟨s, hs, hne⟩ := ih (cur ++ [c]) (Or.inl (by simp))
        refine ⟨s, ?_, hne⟩
        simpa [splitSentencesAux, hb] using hs

theorem buildAux_ne_nil_left (sentences : List (List Char)) :
    ∀ current : List Char, current ≠ [] → buildChunksAux sentences current ≠ [] := by
  induction sentences with
  | nil =>
      intro current h
      simp [buildChunksAux, h]
  | cons s rest ih =>
      intro current h
      by_cases hc : current.length + s.length < max_chunk_size
      · simp only [buildChunksAux, hc, if_true]
        exact ih _ (by simp)
      · simp [buildChunksAux, hc, h]

theorem buildAux_ne_nil_mem (sentences : List (List Char)) :
    ∀ current : List Char, (∃ s ∈ sentences, s ≠ []) →
      buildChunksAux sentences current ≠ [] := by
  induction sentences with
  | nil =>
      intro current h
      obtain ⟨s, hs, _⟩ := h
      exact absurd hs (by simp)
  | cons s rest ih =>
      intro current h
      by_cases hc : current.length + s.length < max_chunk_size
      · simp only [buildChunksAux, hc, if_true]
        exact buildAux_ne_nil_left rest _ (by simp)
      · simp only [buildChunksAux, hc, if_false]
        obtain ⟨t, ht, htne⟩ := h
        rcases List.mem_cons.mp ht with rfl | htr
        · have := buildAux_ne_nil_left rest t htne
          simp [this]
        · have := ih s ⟨t, htr, htne⟩
          simp [this]

theorem buildAux_chunk_bound (sentences : List (List Char)) :
    ∀ (current chunk : List Char), chunk ∈ buildChunksAux sentences current →
      chunk.length ≤ max_chunk_size ∨ chunk = stripChars current ∨
        ∃ s ∈ sentences, chunk = stripChars s := by
  induction sentences with
  | nil =>
      intro current chunk h
      by_cases hc : current.isEmpty
      · simp [buildChunksAux, hc] at h
      · simp [buildChunksAux, hc] at h
        exact Or.inr (Or.inl h)
  | cons s rest ih =>
      intro current chunk h
      by_cases hlen : current.length + s.length < max_chunk_size
      · simp only [buildChunksAux, hlen, if_true] at h
        rcases ih _ chunk h with h1 | h2 | h3
        · exact Or.inl h1
        · left
          have hb : chunk.length ≤ (current ++ [' '] ++ s).length :=
            h2 ▸ stripChars_length_le _
          simp only [List.length_append, List.length_singleton] at hb
          omega
        · obtain ⟨t, ht, he⟩ := h3
          exact Or.inr (Or.inr ⟨t, List.mem_cons_of_mem _ ht, he⟩)
      · simp only [buildChunksAux, hlen, if_false] at h
        rcases List.mem_append.mp h with h1 | h2
        · by_cases hc : current.isEmpty
          · simp [hc] at h1
          · simp [hc] at h1
            exact Or.inr (Or.inl h1)
        · rcases ih s chunk h2 with a | b | cc
          · exact Or.inl a
          · exact Or.inr (Or.inr ⟨s, List.mem_cons_self _ _, b⟩)
          · obtain ⟨t, ht, he⟩ := cc
            exact Or.inr (Or.inr ⟨t, List.mem_cons_of_mem _ ht, he⟩)

theorem splitAux_replicate_a (n : Nat) :
    ∀ cur : List Char, splitSentencesAux (List.replicate n 'a') cur false =
      [cur ++ List.replicate n 'a'] := by
  induction n with
  | zero =>
      intro cur
      simp [splitSentencesAux]
  | succ k ih =>
      intro cur
      have hspace : isPySpace 'a' = false := by decide
      rw [List.replicate_succ]
      simp only [splitSentencesAux, hspace, Bool.false_and, Bool.false_eq_true,
        if_false, ih (cur ++ ['a'])]
      simp

theorem dropWhile_replicate_a (k : Nat) :
    List.dropWhile isPySpace (List.replicate k 'a') = List.replicate k 'a' := by
  cases k with
  | zero => rfl
  | succ m =>
      rw [List.replicate_succ, List.dropWhile_cons]
      simp [show isPySpace 'a' = false from by decide]

theorem strip_replicate_a (n : Nat) :
    stripChars (List.replicate n 'a') = List.replicate n 'a' := by
  unfold stripChars
  rw [dropWhile_replicate_a, List.reverse_replicate, dropWhile_replicate_a,
    List.reverse_replicate]

theorem chunks_replicate_a (n : Nat) (hn : max_chunk_size ≤ n) :
    buildChunksAux (splitSentences (List.replicate n 'a')) [] =
      [List.replicate n 'a'] := by
  rw [splitSentences, splitAux_replicate_a n []]
  simp only [List.nil_append]
  have hno : ¬ (([] : List Char).length + (List.replicate n 'a').length < max_chunk_size) := by
    simp only [List.length_nil, List.length_replicate, max_chunk_size] at hn ⊢
    omega
  have hpos : 0 < n := lt_of_lt_of_le (by norm_num [max_chunk_size]) hn
  have hne : (List.replicate n 'a').isEmpty = false := by
    rw [List.isEmpty_eq_false]
    intro hz
    have hl : n = 0 := by simpa using congrArg List.length hz
    omega
  rw [buildChunksAux, if_neg hno]
  simp [buildChunksAux, hne, strip_replicate_a]

theorem intercalate_single (l : List Char) : List.intercalate [' '] [l] = l := by
  simp [List.intercalate]

theorem translate_replicate (translator : List Char → Option (List Char)) (n : Nat)
    (hn : max_chunk_size < n) :
    translate_text translator (List.replicate n 'a') =
      some ((translator (List.replicate n 'a')).getD (List.replicate n 'a')) := by
  have h1 : ¬ (List.replicate n 'a').length ≤ max_chunk_size := by
    simp only [List.length_replicate]
    omega
  simp only [translate_text, h1, if_false, chunks_replicate_a n (le_of_lt hn),
    List.map_cons, List.map_nil, intercalate_single]

/-- C8 counterexample: the claim says every text longer than the
4500-character threshold is split into two or more segments, but a
4501-character text consisting of a single sentence (no `.`, `!` or `?`
followed by whitespace) produces exactly one chunk, and `translate_text`
issues exactly one translator call for it (here a constant translator
makes the single segment observable in the output). -/
theorem C8_counterexample :
    max_chunk_size < (List.replicate 4501 'a').length ∧
    (buildChunksAux (splitSentences (List.replicate 4501 'a')) []).length = 1 ∧
    translate_text (fun _ => some ['x']) (List.replicate 4501 'a') = some ['x'] := by
  refine ⟨by rw [List.length_replicate]; norm_num [max_chunk_size], ?_, ?_⟩
  · rw [chunks_replicate_a 4501 (by norm_num [max_chunk_size])]
    rfl
  · rw [translate_replicate (fun _ => some ['x']) 4501 (by norm_num [max_chunk_size])]
    rfl

/-- C8 amended: for every input text longer than the 4500-character
threshold, `translate_text` splits the text on sentence boundaries into
one or more segments (two or more only when the sentence split permits:
a text that is a single overlong sentence yields one segment), translates
each segment independently, and rejoins the results with single-space
separators; a segment whose translation raises is passed through
untranslated while the remaining segments are still translated, so a
single segment failure never aborts the whole request. -/
theorem C8_chunking_amended (translator : List Char → Option (List Char))
    (text : List Char) (h : max_chunk_size < text.length) :
    translate_text translator text =
      some (List.intercalate [' ']
        ((buildChunksAux (splitSentences text) []).map
          (fun c => (translator c).getD c))) ∧
    1 ≤ (buildChunksAux (splitSentences text) []).length := by
  constructor
  · have hno : ¬ text.length ≤ max_chunk_size := not_le.mpr h
    simp [translate_text, hno]
  · have htne : text ≠ [] := by
      intro hz
      rw [hz] at h
      simp [max_chunk_size] at h
    obtain ⟨s, hs, hsne⟩ := splitAux_exists_nonempty text [] (Or.inr htne)
    have hch : buildChunksAux (splitSentences text) [] ≠ [] :=
      buildAux_ne_nil_mem (splitSentences text) [] ⟨s, hs, hsne⟩
    exact List.length_pos.mpr hch

theorem C8_chunking_witness :
    translate_text (fun _ => none) (List.replicate 4501 'a') =
      some (List.replicate 4501 'a') ∧
    1 ≤ (buildChunksAux (splitSentences (List.replicate 4501 'a')) []).length := by
  have h := C8_chunking_amended (fun _ => none) (List.replicate 4501 'a')
    (by rw [List.length_replicate]; norm_num [max_chunk_size])
  refine ⟨?_, h.2⟩
  rw [h.1, chunks_replicate_a 4501 (by norm_num [max_chunk_size])]
  simp only [List.map_cons, List.map_nil, Option.getD_none, intercalate_single]

/-- C10: in `translate_text`'s chunking, every produced chunk either has
length at most the 4500-character threshold or is (the stripped form of)
a single input sentence; consequently a chunk assembled from two or more
sentences never exceeds the threshold, while a single sentence longer
than the threshold is sent to the translator whole, exceeding it — as
witnessed by a 4601-character single-sentence text, which is passed to
the translator in one piece. -/
theorem C10_chunk_length_invariant :
    (∀ (sentences : List (List Char)) (chunk : List Char),
      chunk ∈ buildChunksAux sentences [] →
      chunk.length ≤ max_chunk_size ∨ ∃ s ∈ sentences, chunk = stripChars s) ∧
    (∀ translator : List Char → Option (List Char),
      translate_text translator (List.replicate 4601 'a') =
        some ((translator (List.replicate 4601 'a')).getD (List.replicate 4601 'a'))) ∧
    max_chunk_size < (List.replicate 4601 'a').length := by
  refine ⟨?_, ?_, by rw [List.length_replicate]; norm_num [max_chunk_size]⟩
  · intro sentences chunk h
    rcases buildAux_chunk_bound sentences [] chunk h with h1 | h2 | h3
    · exact Or.inl h1
    · left
      rw [h2]
      decide
    · exact Or.inr h3
  · intro translator
    exact translate_replicate translator 4601 (by norm_num [max_chunk_size])

theorem C10_chunk_length_witness :
    (['h', 'i', '.'] : List Char).length ≤ max_chunk_size ∨
      ∃ s ∈ [(['h', 'i', '.'] : List Char)], (['h', 'i', '.'] : List Char) = stripChars s :=
  C10_chunk_length_invariant.1 [['h', 'i', '.']] ['h', 'i', '.'] (by decide)

theorem batch_length {α ε : Type} (process : String → Except ε α) (urls : List String) :
    (batch_process process urls).length = urls.length := by
  induction urls with
  | nil => rfl
  | cons u rest ih =>
      cases hp : process u <;> simp [batch_process, hp, ih]

theorem batch_get {α ε : Type} (process : String → Except ε α) (urls : List String) :
    ∀ (i : Nat) (url : String), urls[i]? = some url →
      (batch_process process urls)[i]? =
        some (match process url with
          | Except.ok out => JobOutcome.success url out
          | Except.error e => JobOutcome.failed url e) := by
  induction urls with
  | nil =>
      intro i url h
      simp at h
  | cons u rest ih =>
      intro i url h
      cases i with
      | zero =>
          rw [List.getElem?_cons_zero] at h
          obtain rfl : u = url := by injection h
          cases hp : process u <;> simp [batch_process, hp]
      | succ n =>
          rw [List.getElem?_cons_succ] at h
          cases hp : process u <;>
            simpa [batch_process, hp, List.getElem?_cons_succ] using ih n url h

theorem batch_counts {α ε : Type} (process : String → Except ε α) (urls : List String) :
    successCount (batch_process process urls) + failedCount (batch_process process urls) =
      urls.length := by
  induction urls with
  | nil => rfl
  | cons u rest ih =>
      cases hp : process u <;>
        simp [batch_process, hp, successCount, failedCount, List.countP_cons,
          JobOutcome.isSuccess, JobOutcome.isFailed] <;>
        simp [successCount, failedCount, JobOutcome.isSuccess, JobOutcome.isFailed] at ih <;>
        omega

/-- C9: `batch_process` runs the jobs one at a time in input order: the
result list has exactly one outcome per input url at the same position —
a url whose processing raises is recorded as a failed outcome and the
runner proceeds to the following urls — and the success/failure summary
counts are derived from that list, summing to its length. -/
theorem C9_batch_isolation {α ε : Type} (process : String → Except ε α)
    (urls : List String) :
    (batch_process process urls).length = urls.length ∧
    (∀ (i : Nat) (url : String), urls[i]? = some url →
      (batch_process process urls)[i]? =
        some (match process url with
          | Except.ok out => JobOutcome.success url out
          | Except.error e => JobOutcome.failed url e)) ∧
    successCount (batch_process process urls) + failedCount (batch_process process urls) =
      urls.length :=
  ⟨batch_length process urls, batch_get process urls, batch_counts process urls⟩

theorem C9_batch_witness :
    (batch_process
      (fun u => if u = "b" then Except.error "AcquisitionError" else Except.ok u)
      ["a", "b", "c"]).length = 3 ∧
    (batch_process
      (fun u => if u = "b" then Except.error "AcquisitionError" else Except.ok u)
      ["a", "b", "c"])[1]? = some (JobOutcome.failed "b" "AcquisitionError") ∧
    (batch_process
      (fun u => if u = "b" then Except.error "AcquisitionError" else Except.ok u)
      ["a", "b", "c"])[2]? = some (JobOutcome.success "c" "c") := by
  have h := C9_batch_isolation
    (fun u => if u = "b" then Except.error "AcquisitionError" else Except.ok u)
    ["a", "b", "c"]
  refine ⟨by rw [h.1]; rfl, ?_, ?_⟩
  · have h1 := h.2.1 1 "b" rfl
    simpa using h1
  · have h2 := h.2.1 2 "c" rfl
    simpa using h2

end GlobalDub
